import Mathlib

/-!
Shallow embedding of the `inject` Go package: a type-keyed value registry
(`New`) plus a reflective invoker (`needle.Inject`) and the `Must` helper.

Modelling conventions:
* A Go type identity (`reflect.Type`) is a `GoType`: an abstract identity
  tag plus a flag recording whether the type implements the `error`
  interface.  The distinguished identity `errorType` models the `error`
  interface type itself (`reflect.TypeOf(&err).Elem()`).
* A dynamically typed Go value (`reflect.Value` / `interface{}`) is a
  `GoValue`: its dynamic type, an abstract payload, and whether the value
  is a nil interface (relevant for the second, error-typed return value).
* The registry `needle map[reflect.Type]reflect.Value` is an association
  list; `New` checks a key before inserting it, so keys stay unique.
* A function value is a `GoFunc`: parameter types, return types, and the
  call behaviour.  The invariant `call_typed` records Go's runtime
  guarantee that `reflect.Value.Call` returns exactly the declared
  result types.
* `Inject` returns, besides the Go-level `(interface{}, error)` pair, the
  list of performed `Call` invocations (so "the callable is not invoked"
  is observable) and the registry after the call (explicit state passing,
  so registry immutability is a provable frame property).  Panics that
  the reflect machinery would raise (argument mismatch in `Call`, failed
  `i.(error)` type assertion) are modelled in `Except GoPanic`.
-/

/-- A Go type identity (`reflect.Type`).  `id` distinguishes types;
`implementsError` records whether the type satisfies the `error`
interface. -/
structure GoType where
  id : Nat
  implementsError : Bool
deriving DecidableEq, Repr

/-- The `error` interface type itself: `reflect.TypeOf(&err).Elem()`. -/
def errorType : GoType := ⟨0, true⟩

/-- A dynamically typed Go value. `isNilInterface` marks a nil interface
value (as tested by `results[1].Interface() != nil`). -/
structure GoValue where
  ty : GoType
  data : Nat
  isNilInterface : Bool
deriving DecidableEq, Repr

/-- The error values produced by the package, one constructor per
`fmt.Errorf` site plus the `errors.Wrap` result. -/
inductive InjectError where
  | duplicateType (first second : GoValue)
  | notCallable (kind : String)
  | tooManyReturnValues
  | invalidSecondReturn (ty : GoType)
  | noReturnValue
  | missingDependency (ty : GoType)
  | cannotInject (cause : GoValue)
deriving DecidableEq, Repr

/-- `errors.Wrap(cause, "cannot inject")` keeps the original error
reachable; `cause` models `errors.Cause` / `Unwrap` on the produced
error. -/
def InjectError.cause : InjectError → Option GoValue
  | .cannotInject e => some e
  | _ => none

/-- The registry: `type needle map[reflect.Type]reflect.Value`. -/
abbrev needle : Type := List (GoType × GoValue)

/-- Map read `n[typ]`; `New` keeps keys unique so first match is the
match. -/
def nLookup (n : needle) (t : GoType) : Option GoValue :=
  match n with
  | [] => none
  | (k, v) :: rest => if k = t then some v else nLookup rest t

/-- The registry holding exactly the given values, keyed by their types. -/
def toNeedle (vs : List GoValue) : needle :=
  vs.map (fun v => (v.ty, v))

/-- The loop body of `New`: for each value, fail on a duplicate type,
otherwise insert. -/
def newLoop (n : needle) : List GoValue → Except InjectError needle
  | [] => .ok n
  | v :: vs =>
    match nLookup n v.ty with
    | some old => .error (.duplicateType old v)
    | none => newLoop (n ++ ([(v.ty, v)] : needle)) vs

/-- `New(args ...interface{}) (Injector, error)`: build the registry,
failing on the first duplicate type identity. -/
def New (args : List GoValue) : Except InjectError needle :=
  newLoop ([] : needle) args

/-- Panics arising in the core: `reflect.Value.Call` with an argument
not assignable to the (element) type it is matched against,
`reflect.Value.Interface` on the zero `Value` (the value stored for an
untyped nil argument), a failed `i.(error)` assertion, or the explicit
`panic(err)` in `Must`. -/
inductive GoPanic where
  | callArgumentMismatch
  | zeroValueInterface
  | failedTypeAssertion
  | panicked (e : InjectError)
deriving DecidableEq, Repr

/-- One element of `New`'s variadic `args ...interface{}`: either an
untyped nil interface value (`reflect.TypeOf` gives the nil type,
`reflect.ValueOf` the zero `Value`) or a typed value. -/
inductive NewArg where
  | nilArg
  | val (v : GoValue)

/-- The loop of `New` over the full argument universe, nils included.
`nilStored` records whether the nil type key is already in the map
(its stored value is the zero `Value`).  A second untyped nil finds
that entry and evaluates `old.Interface()` on the zero `Value`, which
panics instead of producing the duplicate error.  On success the nil
entry, unreachable from `Inject` (no parameter type is the nil type),
is dropped from the returned registry. -/
def newLoopFull (n : needle) (nilStored : Bool) :
    List NewArg → Except GoPanic (Except InjectError needle)
  | [] => .ok (.ok n)
  | .nilArg :: rest =>
    if nilStored then .error .zeroValueInterface
    else newLoopFull n true rest
  | .val v :: rest =>
    match nLookup n v.ty with
    | some old => .ok (.error (.duplicateType old v))
    | none => newLoopFull (n ++ ([(v.ty, v)] : needle)) nilStored rest

/-- `New` over the full argument universe including untyped nils;
`New` above is its restriction to typed values (see
`NewFull_on_typed`). -/
def NewFull (args : List NewArg) : Except GoPanic (Except InjectError needle) :=
  newLoopFull ([] : needle) false args

/-- `Must(i interface{}, err error) interface{}`: panics when `err` is
non-nil, otherwise passes `i` through. -/
def Must (i : Option GoValue) (err : Option InjectError) :
    Except GoPanic (Option GoValue) :=
  match err with
  | some e => .error (.panicked e)
  | none => .ok i

/-- A Go function value: declared parameter types, declared return
types, and the behaviour of calling it.  `call_typed` is Go's static
guarantee that a call returns exactly the declared result types. -/
structure GoFunc where
  inTypes : List GoType
  outTypes : List GoType
  call : List GoValue → List GoValue
  call_typed : ∀ args, (call args).map GoValue.ty = outTypes

/-- `typ.Out(1)` for a function with at least two results. -/
def Out1 (f : GoFunc) : GoType :=
  (f.outTypes.get? 1).getD errorType

/-- A variadic Go function value `func(init..., xs ...E)`.  Its last
declared parameter type `In(NumIn()-1)` is the slice type `[]E`
(`sliceType`), never identical to the element type `E` (`elemType`) —
in Go a slice of `E` is a distinct type from `E`. -/
structure VariadicGoFunc where
  initTypes : List GoType
  elemType : GoType
  sliceType : GoType
  slice_ne_elem : sliceType ≠ elemType
  outTypes : List GoType
  call : List GoValue → List GoValue
  call_typed : ∀ args, (call args).map GoValue.ty = outTypes

/-- The declared parameter types `typ.In(i)` of a variadic function:
the leading parameters followed by the trailing slice type. -/
def VariadicGoFunc.inTypes (f : VariadicGoFunc) : List GoType :=
  f.initTypes ++ [f.sliceType]

/-- `typ.Out(1)` for a variadic function. -/
def Out1V (f : VariadicGoFunc) : GoType :=
  (f.outTypes.get? 1).getD errorType

/-- `val.Call(args)` on a variadic function: `Call` re-packs the
trailing arguments, requiring each argument from position
`NumIn()-1` on to be assignable to the element type `E`, not the
declared slice type `[]E` (assignability modelled as exact type
identity, as everywhere in this development).  An argument of the
slice type itself panics: `reflect: cannot use []E as type E in
Call`. -/
def variadicCall (f : VariadicGoFunc) (args : List GoValue) :
    Except GoPanic (List GoValue) :=
  if args.map GoValue.ty = f.initTypes ++ [f.elemType] then .ok (f.call args)
  else .error .callArgumentMismatch

/-- The argument handed to `Inject`: a non-variadic function value, a
variadic function value (also of reflect kind `Func`), or a value of
some other reflect kind (`val.Kind() != reflect.Func`). -/
inductive InjectArg where
  | fn (f : GoFunc)
  | variadicFn (f : VariadicGoFunc)
  | nonFunc (kind : String)

/-- The argument-building loop of `Inject`: look each parameter type up
in the registry, failing on the first missing one. -/
def resolveArgs (n : needle) : List GoType → Except InjectError (List GoValue)
  | [] => .ok []
  | t :: ts =>
    match nLookup n t with
    | none => .error (.missingDependency t)
    | some v =>
      match resolveArgs n ts with
      | .error e => .error e
      | .ok args => .ok (v :: args)

/-- `val.Call(args)`: panics unless the argument list matches the
declared parameter types, otherwise runs the function. -/
def reflectCall (f : GoFunc) (args : List GoValue) :
    Except GoPanic (List GoValue) :=
  if args.map GoValue.ty = f.inTypes then .ok (f.call args)
  else .error .callArgumentMismatch

/-- The type assertion `i.(error)`: panics unless the dynamic type
implements `error`. -/
def assertAsError (v : GoValue) : Except GoPanic GoValue :=
  if v.ty.implementsError then .ok v else .error .failedTypeAssertion

/-- What one `Inject` call returns at the Go level (`ret`, `err`),
together with the trace of performed `Call` invocations. -/
structure InjectOutcome where
  ret : Option GoValue
  err : Option InjectError
  calls : List (List GoValue)
deriving DecidableEq, Repr

/-- `func (n needle) Inject(fn interface{}) (interface{}, error)`,
with the registry passed through explicitly. -/
def needle.Inject (n : needle) (a : InjectArg) :
    Except GoPanic (InjectOutcome × needle) :=
  match a with
  | .nonFunc kind => .ok (⟨none, some (.notCallable kind), []⟩, n)
  | .fn f =>
    -- check the function for compatibility
    if 2 < f.outTypes.length then
      .ok (⟨none, some .tooManyReturnValues, []⟩, n)
    else if f.outTypes.length = 2 ∧ Out1 f ≠ errorType then
      .ok (⟨none, some (.invalidSecondReturn (Out1 f)), []⟩, n)
    else if f.outTypes.length < 1 then
      .ok (⟨none, some .noReturnValue, []⟩, n)
    else
      -- build the arguments
      match resolveArgs n f.inTypes with
      | .error e => .ok (⟨none, some e, []⟩, n)
      | .ok args =>
        -- call the function
        match reflectCall f args with
        | .error p => .error p
        | .ok results =>
          -- extract the optional error
          if results.length = 2 then
            match results.get? 1 with
            | some r =>
              if r.isNilInterface then
                .ok (⟨results.get? 0, none, [args]⟩, n)
              else
                match assertAsError r with
                | .error p => .error p
                | .ok e => .ok (⟨results.get? 0,
                    some (.cannotInject e), [args]⟩, n)
            | none => .ok (⟨results.get? 0, none, [args]⟩, n)
          else
            .ok (⟨results.get? 0, none, [args]⟩, n)
  | .variadicFn f =>
    -- check the function for compatibility
    if 2 < f.outTypes.length then
      .ok (⟨none, some .tooManyReturnValues, []⟩, n)
    else if f.outTypes.length = 2 ∧ Out1V f ≠ errorType then
      .ok (⟨none, some (.invalidSecondReturn (Out1V f)), []⟩, n)
    else if f.outTypes.length < 1 then
      .ok (⟨none, some .noReturnValue, []⟩, n)
    else
      -- build the arguments
      match resolveArgs n f.inTypes with
      | .error e => .ok (⟨none, some e, []⟩, n)
      | .ok args =>
        -- call the function (variadic re-packing inside Call)
        match variadicCall f args with
        | .error p => .error p
        | .ok results =>
          -- extract the optional error
          if results.length = 2 then
            match results.get? 1 with
            | some r =>
              if r.isNilInterface then
                .ok (⟨results.get? 0, none, [args]⟩, n)
              else
                match assertAsError r with
                | .error p => .error p
                | .ok e => .ok (⟨results.get? 0,
                    some (.cannotInject e), [args]⟩, n)
            | none => .ok (⟨results.get? 0, none, [args]⟩, n)
          else
            .ok (⟨results.get? 0, none, [args]⟩, n)

/-- A return shape `Inject` accepts: one result, or a result plus an
`error`. -/
def ValidReturnShape (f : GoFunc) : Prop :=
  f.outTypes.length = 1 ∨ (f.outTypes.length = 2 ∧ Out1 f = errorType)

instance (f : GoFunc) : Decidable (ValidReturnShape f) := by
  unfold ValidReturnShape
  infer_instance

/-- A return shape `Inject` accepts, for a variadic function. -/
def ValidReturnShapeV (f : VariadicGoFunc) : Prop :=
  f.outTypes.length = 1 ∨ (f.outTypes.length = 2 ∧ Out1V f = errorType)

/-- Every registry key maps to a value of exactly that type — the
invariant `New` establishes via `n[reflect.TypeOf(v)] = reflect.ValueOf(v)`. -/
def NeedleWF (n : needle) : Prop :=
  ∀ p ∈ n, p.1 = p.2.ty

/-! ### Sample types, values and functions (used to instantiate theorems) -/

/-- A named type `A` (e.g. `type A int`). -/
def tA : GoType := ⟨1, false⟩

/-- A named type `B`, distinct from `A`. -/
def tB : GoType := ⟨2, false⟩

/-- The `string` type. -/
def tStr : GoType := ⟨3, false⟩

/-- A concrete type with an `Error` method: it implements the `error`
interface but is not the `error` interface type itself. -/
def tMyErr : GoType := ⟨4, true⟩

def vA : GoValue := ⟨tA, 0, false⟩

def vB : GoValue := ⟨tB, 1, false⟩

/-- A second value of type `A`, with a different payload. -/
def vA2 : GoValue := ⟨tA, 99, false⟩

def vStr : GoValue := ⟨tStr, 7, false⟩

/-- `func(a A) string`. -/
def fOneA : GoFunc where
  inTypes := [tA]
  outTypes := [tStr]
  call := fun args => [⟨tStr, (args.map GoValue.data).sum, false⟩]
  call_typed := by intro a; rfl

/-- `func(a A, b B) string`. -/
def fAB : GoFunc where
  inTypes := [tA, tB]
  outTypes := [tStr]
  call := fun args => [⟨tStr, (args.map GoValue.data).sum, false⟩]
  call_typed := by intro a; rfl

/-- `func(b B, a A) string`: the parameter-permuted twin of `fAB`. -/
def fBA : GoFunc where
  inTypes := [tB, tA]
  outTypes := [tStr]
  call := fun args => [⟨tStr, (args.map GoValue.data).sum, false⟩]
  call_typed := by intro a; rfl

/-- `func()`: no return values. -/
def fZero : GoFunc where
  inTypes := []
  outTypes := []
  call := fun _ => []
  call_typed := by intro a; rfl

/-- A function with three return values. -/
def fThree : GoFunc where
  inTypes := []
  outTypes := [tStr, tStr, tStr]
  call := fun _ => [⟨tStr, 0, false⟩, ⟨tStr, 1, false⟩, ⟨tStr, 2, false⟩]
  call_typed := by intro a; rfl

/-- `func() (string, MyErr)`: the second return implements `error` but
is not the `error` interface type. -/
def fBadSecond : GoFunc where
  inTypes := []
  outTypes := [tStr, tMyErr]
  call := fun _ => [⟨tStr, 0, false⟩, ⟨tMyErr, 1, false⟩]
  call_typed := by intro a; rfl

/-- `func(s string) (string, error)` returning a non-nil error. -/
def fValErr : GoFunc where
  inTypes := [tStr]
  outTypes := [tStr, errorType]
  call := fun _ => [⟨tStr, 3, false⟩, ⟨errorType, 8, false⟩]
  call_typed := by intro a; rfl

/-- `func() string`: no parameters. -/
def fNoArgs : GoFunc where
  inTypes := []
  outTypes := [tStr]
  call := fun _ => [⟨tStr, 11, false⟩]
  call_typed := by intro a; rfl

/-- The reflect kind string of a plain integer value. -/
def kindInt : String := "int"

/-- The plain `int` type. -/
def tInt : GoType := ⟨5, false⟩

/-- The slice type `[]int`. -/
def tIntSlice : GoType := ⟨6, false⟩

/-- A registered value of type `[]int`. -/
def vIntSlice : GoValue := ⟨tIntSlice, 0, false⟩

/-- The variadic function `func(xs ...int) int`: its single declared
parameter type `In(0)` is `[]int`. -/
def fVariadic : VariadicGoFunc where
  initTypes := []
  elemType := tInt
  sliceType := tIntSlice
  slice_ne_elem := by decide
  outTypes := [tInt]
  call := fun args => [⟨tInt, (args.map GoValue.data).sum, false⟩]
  call_typed := by intro a; rfl

/-! ### Registry lemmas -/

theorem nLookup_append (a b : needle) (t : GoType) :
    nLookup (a ++ b) t = (nLookup a t).or (nLookup b t) := by
  induction a with
  | nil => simp [nLookup]
  | cons p rest ih =>
    obtain ⟨k, v⟩ := p
    by_cases h : k = t <;> simp [nLookup, h, ih]

theorem nLookup_wf_ty (n : needle) (t : GoType) (v : GoValue)
    (hwf : NeedleWF n) (h : nLookup n t = some v) : v.ty = t := by
  induction n with
  | nil => simp [nLookup] at h
  | cons p rest ih =>
    obtain ⟨k, w⟩ := p
    by_cases hk : k = t
    · subst hk
      simp [nLookup] at h
      have := hwf (k, w) (List.mem_cons_self (k, w) rest)
      simp at this
      rw [← h, ← this]
    · simp [nLookup, hk] at h
      exact ih (fun p hp => hwf p (List.mem_cons_of_mem _ hp)) h

theorem nLookup_toNeedle_none (vs : List GoValue) (t : GoType)
    (h : ∀ v ∈ vs, v.ty ≠ t) : nLookup (toNeedle vs) t = none := by
  induction vs with
  | nil => rfl
  | cons v rest ih =>
    simp only [toNeedle, List.map_cons]
    simp [nLookup, h v (List.mem_cons_self v rest)]
    exact ih (fun w hw => h w (List.mem_cons_of_mem _ hw))

theorem nLookup_toNeedle_mem (vs : List GoValue) (v : GoValue)
    (hv : v ∈ vs) (hd : vs.Pairwise (fun a b => a.ty ≠ b.ty)) :
    nLookup (toNeedle vs) v.ty = some v := by
  induction vs with
  | nil => cases hv
  | cons a rest ih =>
    rcases List.mem_cons.mp hv with rfl | hv2
    · simp [toNeedle, nLookup]
    · have hne : a.ty ≠ v.ty := (List.pairwise_cons.mp hd).1 v hv2
      simp only [toNeedle, List.map_cons]
      simp [nLookup, hne]
      exact ih hv2 (List.pairwise_cons.mp hd).2

theorem toNeedle_wf (vs : List GoValue) : NeedleWF (toNeedle vs) := by
  intro p hp
  simp [toNeedle, List.mem_map] at hp
  obtain ⟨v, _, rfl⟩ := hp
  rfl

theorem wf_append (a b : needle) (ha : NeedleWF a) (hb : NeedleWF b) :
    NeedleWF (a ++ b) := by
  intro p hp
  rcases List.mem_append.mp hp with h | h
  · exact ha p h
  · exact hb p h

/-! ### `New` lemmas -/

theorem newLoop_ok_append (vs : List GoValue) : ∀ acc : needle,
    vs.Pairwise (fun a b => a.ty ≠ b.ty) →
    (∀ v ∈ vs, nLookup acc v.ty = none) →
    newLoop acc vs = .ok (acc ++ toNeedle vs) := by
  induction vs with
  | nil => intro acc _ _; simp [newLoop, toNeedle]
  | cons v rest ih =>
    intro acc hp hf
    have h0 : nLookup acc v.ty = none := hf v (List.mem_cons_self v rest)
    have hstep := ih (acc ++ ([(v.ty, v)] : needle))
      (List.pairwise_cons.mp hp).2
      (by
        intro w hw
        rw [nLookup_append]
        rw [hf w (List.mem_cons_of_mem _ hw)]
        have : v.ty ≠ w.ty := (List.pairwise_cons.mp hp).1 w hw
        simp [nLookup, this])
    simp only [newLoop, h0]
    rw [hstep]
    simp [toNeedle]

theorem New_ok_of_pairwise (vs : List GoValue)
    (hp : vs.Pairwise (fun a b => a.ty ≠ b.ty)) :
    New vs = .ok (toNeedle vs) := by
  have := newLoop_ok_append vs [] hp (by intro v _; rfl)
  simpa [New] using this

theorem newLoop_wf (vs : List GoValue) : ∀ acc n : needle,
    NeedleWF acc → newLoop acc vs = .ok n → NeedleWF n := by
  induction vs with
  | nil =>
    intro acc n hw h
    simp [newLoop] at h
    exact h ▸ hw
  | cons v rest ih =>
    intro acc n hw h
    simp only [newLoop] at h
    cases hl : nLookup acc v.ty with
    | some old => rw [hl] at h; cases h
    | none =>
      rw [hl] at h
      refine ih _ _ ?_ h
      exact wf_append acc _ hw (by intro p hp; simp at hp; rw [hp])

theorem New_ok_wf (vs : List GoValue) (n : needle)
    (h : New vs = .ok n) : NeedleWF n :=
  newLoop_wf vs [] n (by intro p hp; cases hp) h

theorem newLoop_ok_fresh (vs : List GoValue) : ∀ acc n : needle,
    newLoop acc vs = .ok n →
    vs.Pairwise (fun a b => a.ty ≠ b.ty) ∧
      ∀ v ∈ vs, nLookup acc v.ty = none := by
  induction vs with
  | nil => intro acc n _; exact ⟨List.Pairwise.nil, by intro v hv; cases hv⟩
  | cons v rest ih =>
    intro acc n h
    simp only [newLoop] at h
    cases hl : nLookup acc v.ty with
    | some old => rw [hl] at h; cases h
    | none =>
      rw [hl] at h
      obtain ⟨hp, hf⟩ := ih _ _ h
      have hsplit : ∀ w ∈ rest, nLookup acc w.ty = none ∧ v.ty ≠ w.ty := by
        intro w hw
        have := hf w hw
        rw [nLookup_append] at this
        rcases Option.or_eq_none.mp this with ⟨h1, h2⟩
        refine ⟨h1, ?_⟩
        intro hvw
        simp [nLookup, hvw] at h2
      constructor
      · exact List.pairwise_cons.mpr ⟨fun w hw => (hsplit w hw).2, hp⟩
      · intro w hw
        rcases List.mem_cons.mp hw with rfl | hw2
        · exact hl
        · exact (hsplit w hw2).1

theorem newLoop_error_shape (vs : List GoValue) : ∀ (acc : needle)
    (e : InjectError), NeedleWF acc → newLoop acc vs = .error e →
    ∃ o w, e = .duplicateType o w ∧ o.ty = w.ty := by
  induction vs with
  | nil => intro acc e _ h; simp [newLoop] at h
  | cons v rest ih =>
    intro acc e hw h
    simp only [newLoop] at h
    cases hl : nLookup acc v.ty with
    | some old =>
      rw [hl] at h
      simp at h
      exact ⟨old, v, h.symm, nLookup_wf_ty acc v.ty old hw hl⟩
    | none =>
      rw [hl] at h
      exact ih _ e (wf_append acc _ hw (by intro p hp; simp at hp; rw [hp])) h

/-! ### Argument-resolution lemmas -/

theorem resolveArgs_ok_of_lookup (n : needle) (ts : List GoType)
    (h : ∀ t ∈ ts, (nLookup n t).isSome) :
    ∃ args, resolveArgs n ts = .ok args ∧ args.length = ts.length ∧
      ∀ i, args.get? i = (ts.get? i).bind (nLookup n) := by
  induction ts with
  | nil =>
    refine ⟨[], rfl, rfl, ?_⟩
    intro i
    simp
  | cons t rest ih =>
    obtain ⟨v, hv⟩ := Option.isSome_iff_exists.mp
      (h t (List.mem_cons_self t rest))
    obtain ⟨args, hargs, hlen, hget⟩ :=
      ih (fun u hu => h u (List.mem_cons_of_mem _ hu))
    refine ⟨v :: args, ?_, by simp [hlen], ?_⟩
    · simp only [resolveArgs, hv, hargs]
    · intro i
      cases i with
      | zero => simp [hv]
      | succ j => simpa using hget j

theorem resolveArgs_error_first (n : needle) (ts : List GoType) (j : Nat)
    (t : GoType) (hj : ts.get? j = some t) (hmiss : nLookup n t = none)
    (hbefore : ∀ i, i < j → ∀ u, ts.get? i = some u → (nLookup n u).isSome) :
    resolveArgs n ts = .error (.missingDependency t) := by
  induction ts generalizing j with
  | nil => simp at hj
  | cons a rest ih =>
    cases j with
    | zero =>
      simp at hj
      subst hj
      simp only [resolveArgs, hmiss]
    | succ k =>
      have ha : (nLookup n a).isSome :=
        hbefore 0 (Nat.succ_pos k) a rfl
      obtain ⟨v, hv⟩ := Option.isSome_iff_exists.mp ha
      have htail : resolveArgs n rest = .error (.missingDependency t) := by
        refine ih k (by simpa using hj) ?_
        intro i hi u hu
        exact hbefore (i + 1) (Nat.succ_lt_succ hi) u (by simpa using hu)
      simp only [resolveArgs, hv, htail]

theorem resolveArgs_ok_tys (n : needle) (ts : List GoType)
    (args : List GoValue) (hwf : NeedleWF n)
    (h : resolveArgs n ts = .ok args) : args.map GoValue.ty = ts := by
  induction ts generalizing args with
  | nil =>
    simp [resolveArgs] at h
    subst h
    rfl
  | cons t rest ih =>
    simp only [resolveArgs] at h
    cases hl : nLookup n t with
    | none => rw [hl] at h; cases h
    | some v =>
      rw [hl] at h
      cases hr : resolveArgs n rest with
      | error e => rw [hr] at h; cases h
      | ok args2 =>
        rw [hr] at h
        simp at h
        rw [← h]
        simp [ih args2 hr, nLookup_wf_ty n t v hwf hl]

/-! ### Call lemmas -/

theorem call_length (f : GoFunc) (args : List GoValue) :
    (f.call args).length = f.outTypes.length := by
  have := congrArg List.length (f.call_typed args)
  simpa using this

theorem call_get?_ty (f : GoFunc) (args : List GoValue) (i : Nat)
    (r : GoValue) (h : (f.call args).get? i = some r) :
    f.outTypes.get? i = some r.ty := by
  rw [← f.call_typed args, List.get?_map, h]
  rfl

theorem reflectCall_ok (f : GoFunc) (args : List GoValue)
    (h : args.map GoValue.ty = f.inTypes) :
    reflectCall f args = .ok (f.call args) := by
  simp [reflectCall, h]

/-! ### `Inject` branch lemmas -/

theorem valid_shape_guards (f : GoFunc) (h : ValidReturnShape f) :
    ¬ 2 < f.outTypes.length ∧
      ¬ (f.outTypes.length = 2 ∧ Out1 f ≠ errorType) ∧
      ¬ f.outTypes.length < 1 := by
  rcases h with h1 | ⟨h2, hOut⟩
  · exact ⟨by omega, by rw [h1]; simp, by omega⟩
  · exact ⟨by omega, by simp [hOut], by omega⟩

theorem inject_nonFunc (n : needle) (kind : String) :
    needle.Inject n (.nonFunc kind) =
      .ok (⟨none, some (.notCallable kind), []⟩, n) := rfl

theorem inject_tooMany (n : needle) (f : GoFunc)
    (h : 2 < f.outTypes.length) :
    needle.Inject n (.fn f) =
      .ok (⟨none, some .tooManyReturnValues, []⟩, n) := by
  simp [needle.Inject, h]

theorem inject_invalidSecond (n : needle) (f : GoFunc)
    (h2 : f.outTypes.length = 2) (hne : Out1 f ≠ errorType) :
    needle.Inject n (.fn f) =
      .ok (⟨none, some (.invalidSecondReturn (Out1 f)), []⟩, n) := by
  simp [needle.Inject, h2, hne]

theorem inject_noReturn (n : needle) (f : GoFunc)
    (h : f.outTypes.length = 0) :
    needle.Inject n (.fn f) =
      .ok (⟨none, some .noReturnValue, []⟩, n) := by
  simp [needle.Inject, h]

theorem inject_resolve_error (n : needle) (f : GoFunc) (e : InjectError)
    (hshape : ValidReturnShape f)
    (hres : resolveArgs n f.inTypes = .error e) :
    needle.Inject n (.fn f) = .ok (⟨none, some e, []⟩, n) := by
  obtain ⟨g1, g2, g3⟩ := valid_shape_guards f hshape
  simp only [needle.Inject]
  rw [if_neg g1, if_neg g2, if_neg g3, hres]

theorem inject_success (n : needle) (f : GoFunc) (args : List GoValue)
    (hwf : NeedleWF n) (hshape : ValidReturnShape f)
    (hres : resolveArgs n f.inTypes = .ok args) :
    needle.Inject n (.fn f) =
      .ok (⟨(f.call args).get? 0,
        ((f.call args).get? 1).bind
          (fun r => if r.isNilInterface then none
            else some (.cannotInject r)),
        [args]⟩, n) := by
  have htys := resolveArgs_ok_tys n f.inTypes args hwf hres
  have hcall := reflectCall_ok f args htys
  obtain ⟨g1, g2, g3⟩ := valid_shape_guards f hshape
  simp only [needle.Inject]
  rw [if_neg g1, if_neg g2, if_neg g3, hres]
  simp only [hcall]
  rcases hshape with h1 | ⟨h2, hOut⟩
  · have hl : (f.call args).length = 1 := by rw [call_length, h1]
    have hg1 : (f.call args).get? 1 = none :=
      List.get?_eq_none.mpr (by omega)
    rw [if_neg (by omega)]
    rw [List.get?_eq_getElem?] at hg1
    simp [hg1]
  · have hl : (f.call args).length = 2 := by rw [call_length, h2]
    obtain ⟨r, hr⟩ : ∃ r, (f.call args).get? 1 = some r := by
      cases hg : (f.call args).get? 1 with
      | none => exact absurd (List.get?_eq_none.mp hg) (by omega)
      | some r => exact ⟨r, rfl⟩
    have hrty : r.ty = errorType := by
      have hmem := call_get?_ty f args 1 r hr
      rw [List.get?_eq_getElem?] at hmem
      rw [← hOut]
      simp [Out1, List.get?_eq_getElem?, hmem]
    rw [if_pos hl, hr]
    by_cases hnil : r.isNilInterface
    · simp [hnil]
    · have hassert : assertAsError r = .ok r := by
        simp [assertAsError, hrty, errorType]
      simp only [Bool.not_eq_true] at hnil
      simp [hnil, hassert]

/-! ### Further helper lemmas -/

theorem newLoop_append_toNeedle (pre : List GoValue) :
    ∀ (acc : needle) (zs : List GoValue),
    pre.Pairwise (fun a b => a.ty ≠ b.ty) →
    (∀ v ∈ pre, nLookup acc v.ty = none) →
    newLoop acc (pre ++ zs) = newLoop (acc ++ toNeedle pre) zs := by
  induction pre with
  | nil => intro acc zs _ _; simp [toNeedle]
  | cons v rest ih =>
    intro acc zs hp hf
    have h0 : nLookup acc v.ty = none := hf v (List.mem_cons_self v rest)
    simp only [List.cons_append, newLoop, h0, List.append_eq]
    rw [ih (acc ++ ([(v.ty, v)] : needle)) zs (List.pairwise_cons.mp hp).2
      (by
        intro w hw
        rw [nLookup_append]
        rw [hf w (List.mem_cons_of_mem _ hw)]
        have : v.ty ≠ w.ty := (List.pairwise_cons.mp hp).1 w hw
        simp [nLookup, this])]
    simp [toNeedle]

theorem resolveArgs_get? (n : needle) (ts : List GoType)
    (args : List GoValue) (h : resolveArgs n ts = .ok args) (i : Nat) :
    args.get? i = (ts.get? i).bind (nLookup n) := by
  induction ts generalizing args i with
  | nil =>
    simp [resolveArgs] at h
    subst h
    simp
  | cons t rest ih =>
    simp only [resolveArgs] at h
    cases hl : nLookup n t with
    | none => rw [hl] at h; cases h
    | some v =>
      rw [hl] at h
      cases hr : resolveArgs n rest with
      | error e => rw [hr] at h; cases h
      | ok args2 =>
        rw [hr] at h
        simp at h
        subst h
        cases i with
        | zero => simp [hl]
        | succ k => simpa using ih args2 hr k

theorem resolveArgs_ext (n n2 : needle)
    (hext : ∀ t, nLookup n t = nLookup n2 t) (ts : List GoType) :
    resolveArgs n ts = resolveArgs n2 ts := by
  induction ts with
  | nil => rfl
  | cons t rest ih => simp only [resolveArgs, hext t, ih]

theorem invalid_shape_cases (f : GoFunc) (h : ¬ ValidReturnShape f) :
    2 < f.outTypes.length ∨ (f.outTypes.length = 2 ∧ Out1 f ≠ errorType) ∨
      f.outTypes.length = 0 := by
  by_cases h3 : 2 < f.outTypes.length
  · exact Or.inl h3
  by_cases h2 : f.outTypes.length = 2
  · refine Or.inr (Or.inl ⟨h2, ?_⟩)
    intro he
    exact h (Or.inr ⟨h2, he⟩)
  · have hle : f.outTypes.length = 0 ∨ f.outTypes.length = 1 := by omega
    rcases hle with h0 | h1
    · exact Or.inr (Or.inr h0)
    · exact absurd (Or.inl h1) h

/-! ### Variadic-function branch lemmas -/

theorem valid_shape_guardsV (f : VariadicGoFunc) (h : ValidReturnShapeV f) :
    ¬ 2 < f.outTypes.length ∧
      ¬ (f.outTypes.length = 2 ∧ Out1V f ≠ errorType) ∧
      ¬ f.outTypes.length < 1 := by
  rcases h with h1 | ⟨h2, hOut⟩
  · exact ⟨by omega, by rw [h1]; simp, by omega⟩
  · exact ⟨by omega, by simp [hOut], by omega⟩

theorem invalid_shape_casesV (f : VariadicGoFunc)
    (h : ¬ ValidReturnShapeV f) :
    2 < f.outTypes.length ∨
      (f.outTypes.length = 2 ∧ Out1V f ≠ errorType) ∨
      f.outTypes.length = 0 := by
  by_cases h3 : 2 < f.outTypes.length
  · exact Or.inl h3
  by_cases h2 : f.outTypes.length = 2
  · refine Or.inr (Or.inl ⟨h2, ?_⟩)
    intro he
    exact h (Or.inr ⟨h2, he⟩)
  · have hle : f.outTypes.length = 0 ∨ f.outTypes.length = 1 := by omega
    rcases hle with h0 | h1
    · exact Or.inr (Or.inr h0)
    · exact absurd (Or.inl h1) h

theorem injectV_tooMany (n : needle) (f : VariadicGoFunc)
    (h : 2 < f.outTypes.length) :
    needle.Inject n (.variadicFn f) =
      .ok (⟨none, some .tooManyReturnValues, []⟩, n) := by
  simp [needle.Inject, h]

theorem injectV_invalidSecond (n : needle) (f : VariadicGoFunc)
    (h2 : f.outTypes.length = 2) (hne : Out1V f ≠ errorType) :
    needle.Inject n (.variadicFn f) =
      .ok (⟨none, some (.invalidSecondReturn (Out1V f)), []⟩, n) := by
  simp [needle.Inject, h2, hne]

theorem injectV_noReturn (n : needle) (f : VariadicGoFunc)
    (h : f.outTypes.length = 0) :
    needle.Inject n (.variadicFn f) =
      .ok (⟨none, some .noReturnValue, []⟩, n) := by
  simp [needle.Inject, h]

theorem injectV_resolve_error (n : needle) (f : VariadicGoFunc)
    (e : InjectError) (hshape : ValidReturnShapeV f)
    (hres : resolveArgs n f.inTypes = .error e) :
    needle.Inject n (.variadicFn f) = .ok (⟨none, some e, []⟩, n) := by
  obtain ⟨g1, g2, g3⟩ := valid_shape_guardsV f hshape
  simp only [needle.Inject]
  rw [if_neg g1, if_neg g2, if_neg g3, hres]

theorem variadicCall_mismatch (f : VariadicGoFunc) (args : List GoValue)
    (h : args.map GoValue.ty = f.inTypes) :
    variadicCall f args = .error .callArgumentMismatch := by
  have hne : ¬ (f.inTypes = f.initTypes ++ [f.elemType]) := by
    intro heq
    simp only [VariadicGoFunc.inTypes] at heq
    have hlast := List.append_cancel_left heq
    injection hlast with h1 h3
    exact f.slice_ne_elem h1
  simp only [variadicCall, h]
  rw [if_neg hne]

theorem injectV_call_panic (n : needle) (f : VariadicGoFunc)
    (args : List GoValue) (hwf : NeedleWF n)
    (hshape : ValidReturnShapeV f)
    (hres : resolveArgs n f.inTypes = .ok args) :
    needle.Inject n (.variadicFn f) = .error .callArgumentMismatch := by
  have htys := resolveArgs_ok_tys n f.inTypes args hwf hres
  have hcall := variadicCall_mismatch f args htys
  obtain ⟨g1, g2, g3⟩ := valid_shape_guardsV f hshape
  simp only [needle.Inject]
  rw [if_neg g1, if_neg g2, if_neg g3, hres]
  simp only [hcall]

theorem inject_ext_wf (n n2 : needle) (hwf : NeedleWF n)
    (hwf2 : NeedleWF n2) (hext : ∀ t, nLookup n t = nLookup n2 t)
    (a : InjectArg) :
    (needle.Inject n a).map Prod.fst =
      (needle.Inject n2 a).map Prod.fst := by
  cases a with
  | nonFunc k => rfl
  | fn f =>
    by_cases hshape : ValidReturnShape f
    · cases hres : resolveArgs n f.inTypes with
      | error e =>
        have hres2 : resolveArgs n2 f.inTypes = .error e := by
          rw [← resolveArgs_ext n n2 hext]
          exact hres
        rw [inject_resolve_error n f e hshape hres,
          inject_resolve_error n2 f e hshape hres2]
        rfl
      | ok args =>
        have hres2 : resolveArgs n2 f.inTypes = .ok args := by
          rw [← resolveArgs_ext n n2 hext]
          exact hres
        rw [inject_success n f args hwf hshape hres,
          inject_success n2 f args hwf2 hshape hres2]
        rfl
    · rcases invalid_shape_cases f hshape with h3 | ⟨h2, hne⟩ | h0
      · rw [inject_tooMany n f h3, inject_tooMany n2 f h3]
        rfl
      · rw [inject_invalidSecond n f h2 hne,
          inject_invalidSecond n2 f h2 hne]
        rfl
      · rw [inject_noReturn n f h0, inject_noReturn n2 f h0]
        rfl
  | variadicFn f =>
    by_cases hshape : ValidReturnShapeV f
    · cases hres : resolveArgs n f.inTypes with
      | error e =>
        have hres2 : resolveArgs n2 f.inTypes = .error e := by
          rw [← resolveArgs_ext n n2 hext]
          exact hres
        rw [injectV_resolve_error n f e hshape hres,
          injectV_resolve_error n2 f e hshape hres2]
        rfl
      | ok args =>
        have hres2 : resolveArgs n2 f.inTypes = .ok args := by
          rw [← resolveArgs_ext n n2 hext]
          exact hres
        rw [injectV_call_panic n f args hwf hshape hres,
          injectV_call_panic n2 f args hwf2 hshape hres2]
    · rcases invalid_shape_casesV f hshape with h3 | ⟨h2, hne⟩ | h0
      · rw [injectV_tooMany n f h3, injectV_tooMany n2 f h3]
        rfl
      · rw [injectV_invalidSecond n f h2 hne,
          injectV_invalidSecond n2 f h2 hne]
        rfl
      · rw [injectV_noReturn n f h0, injectV_noReturn n2 f h0]
        rfl

theorem inject_no_panic (n : needle) (hwf : NeedleWF n) (a : InjectArg)
    (hnv : ∀ g : VariadicGoFunc, a ≠ .variadicFn g) :
    ∃ res, needle.Inject n a = .ok res := by
  cases a with
  | variadicFn g => exact absurd rfl (hnv g)
  | nonFunc k => exact ⟨_, rfl⟩
  | fn f =>
    by_cases hshape : ValidReturnShape f
    · cases hres : resolveArgs n f.inTypes with
      | error e => exact ⟨_, inject_resolve_error n f e hshape hres⟩
      | ok args => exact ⟨_, inject_success n f args hwf hshape hres⟩
    · rcases invalid_shape_cases f hshape with h3 | ⟨h2, hne⟩ | h0
      · exact ⟨_, inject_tooMany n f h3⟩
      · exact ⟨_, inject_invalidSecond n f h2 hne⟩
      · exact ⟨_, inject_noReturn n f h0⟩

theorem inject_frame (n : needle) (a : InjectArg) (out : InjectOutcome)
    (n2 : needle) (h : needle.Inject n a = .ok (out, n2)) : n2 = n := by
  cases a with
  | nonFunc k =>
    simp only [needle.Inject] at h
    injection h with h1
    injection h1 with h2 h3
    exact h3.symm
  | fn f =>
    simp only [needle.Inject] at h
    repeat' split at h
    all_goals (cases h <;> rfl)
  | variadicFn f =>
    simp only [needle.Inject] at h
    repeat' split at h
    all_goals (cases h <;> rfl)

theorem New_ok_eq_toNeedle (vs : List GoValue) (n : needle)
    (h : New vs = .ok n) : n = toNeedle vs := by
  have hp := (newLoop_ok_fresh vs [] n h).1
  have hN := New_ok_of_pairwise vs hp
  have := hN.symm.trans h
  injection this with h1
  exact h1.symm

theorem nLookup_toNeedle_perm (vs vsP : List GoValue) (hperm : vs.Perm vsP)
    (hd : vs.Pairwise (fun a b => a.ty ≠ b.ty)) (t : GoType) :
    nLookup (toNeedle vs) t = nLookup (toNeedle vsP) t := by
  have hdP : vsP.Pairwise (fun a b => a.ty ≠ b.ty) :=
    (hperm.pairwise_iff (fun {a b} h he => h he.symm)).mp hd
  by_cases hex : ∃ v ∈ vs, v.ty = t
  · obtain ⟨v, hv, rfl⟩ := hex
    rw [nLookup_toNeedle_mem vs v hv hd,
      nLookup_toNeedle_mem vsP v (hperm.mem_iff.mp hv) hdP]
  · push_neg at hex
    rw [nLookup_toNeedle_none vs t hex,
      nLookup_toNeedle_none vsP t (fun v hv => hex v (hperm.mem_iff.mpr hv))]

/-! ### Claim theorems -/

/-- C1: for every sequence of values with pairwise-distinct type
identities, `New` succeeds, and every registered value `v` is
independently resolvable: `Inject` on a one-parameter function taking
`v`'s type, with a valid return shape, performs exactly one call whose
argument list is exactly `[v]`. -/
theorem new_distinct_registers_all (args : List GoValue)
    (hd : args.Pairwise (fun a b => a.ty ≠ b.ty))
    (v : GoValue) (hv : v ∈ args) (f : GoFunc)
    (hin : f.inTypes = [v.ty]) (hshape : ValidReturnShape f) :
    ∃ n, New args = .ok n ∧
      ∃ out, needle.Inject n (.fn f) = .ok (out, n) ∧
        out.calls = [[v]] ∧ out.ret = (f.call [v]).get? 0 := by
  refine ⟨toNeedle args, New_ok_of_pairwise args hd, ?_⟩
  have hres : resolveArgs (toNeedle args) f.inTypes = .ok [v] := by
    rw [hin]
    simp only [resolveArgs, nLookup_toNeedle_mem args v hv hd]
  exact ⟨_, inject_success (toNeedle args) f [v] (toNeedle_wf args)
    hshape hres, rfl, rfl⟩

/-- Witness for `new_distinct_registers_all`: registry `[vA, vB]`,
resolving `vA` into `fOneA`. -/
theorem new_distinct_registers_all_witness :
    ∃ n, New [vA, vB] = .ok n ∧
      ∃ out, needle.Inject n (.fn fOneA) = .ok (out, n) ∧
        out.calls = [[vA]] ∧ out.ret = (fOneA.call [vA]).get? 0 :=
  new_distinct_registers_all [vA, vB] (by decide) vA (by decide) fOneA rfl
    (Or.inl rfl)

/-- C2: a value sequence that is not pairwise-distinct by type makes
`New` fail with a `duplicateType` error identifying two same-typed
values; at the first conflict `pre ++ v :: rest` (the types in `pre`
distinct, `old` the stored value of `v`'s type), the error identifies
exactly `old` and `v`, the stored value is not overwritten, and the
outcome does not depend on `rest` (the remaining values are not
processed). -/
theorem new_duplicate_fails :
    (∀ vs : List GoValue, ¬ vs.Pairwise (fun a b => a.ty ≠ b.ty) →
        ∃ o w, o.ty = w.ty ∧ New vs = .error (.duplicateType o w))
    ∧ (∀ (pre rest : List GoValue) (v old : GoValue),
        pre.Pairwise (fun a b => a.ty ≠ b.ty) → old ∈ pre →
        old.ty = v.ty →
        New (pre ++ v :: rest) = .error (.duplicateType old v)) := by
  constructor
  · intro vs hnp
    cases hN : New vs with
    | ok n => exact absurd (newLoop_ok_fresh vs [] n hN).1 hnp
    | error e =>
      obtain ⟨o, w, he, hty⟩ := newLoop_error_shape vs [] e
        (fun p hp => absurd hp (List.not_mem_nil p)) hN
      exact ⟨o, w, hty, by rw [he]⟩
  · intro pre rest v old hpd hold hty
    have hpre : nLookup (toNeedle pre) v.ty = some old := by
      rw [← hty]
      exact nLookup_toNeedle_mem pre old hold hpd
    have hstep := newLoop_append_toNeedle pre [] (v :: rest) hpd
      (fun w _ => rfl)
    unfold New
    rw [hstep]
    simp only [List.nil_append, newLoop, hpre]

/-- Witness for `new_duplicate_fails`: `New [vA, vA2]` (two values of
type `A`) fails naming `vA` and `vA2`. -/
theorem new_duplicate_fails_witness :
    New [vA, vA2] = .error (.duplicateType vA vA2) :=
  new_duplicate_fails.2 [vA] [] vA2 vA (by decide) (by decide) rfl

/-- C3: for a callable that passes validation and whose first unresolved
parameter (position `j`, type `t`, all earlier parameters resolvable) is
absent from the registry, `Inject` returns a `missingDependency` error
naming `t`, a nil result, and performs no call at all. -/
theorem inject_missing_dependency (n : needle) (f : GoFunc) (j : Nat)
    (t : GoType) (hshape : ValidReturnShape f)
    (hj : f.inTypes.get? j = some t) (hmiss : nLookup n t = none)
    (hfirst : ∀ i, i < j → ∀ u, f.inTypes.get? i = some u →
      (nLookup n u).isSome) :
    needle.Inject n (.fn f) =
      .ok (⟨none, some (.missingDependency t), []⟩, n) :=
  inject_resolve_error n f _ hshape
    (resolveArgs_error_first n f.inTypes j t hj hmiss hfirst)

/-- Witness for `inject_missing_dependency`: registry holding only `vA`,
callable `fAB` needing `A` and `B`; type `B` is reported missing and no
call happens. -/
theorem inject_missing_dependency_witness :
    needle.Inject (toNeedle [vA]) (.fn fAB) =
      .ok (⟨none, some (.missingDependency tB), []⟩, toNeedle [vA]) :=
  inject_missing_dependency (toNeedle [vA]) fAB 1 tB (Or.inl rfl) rfl rfl
    (by
      intro i hi u hu
      have h0 : i = 0 := Nat.lt_one_iff.mp hi
      subst h0
      have htA : (some tA : Option GoType) = some u := hu
      injection htA with htA2
      subst htA2
      rfl)

/-- C4: when all arguments resolve, a 1-result callable's single return
value is the result with nil error; a 2-result callable returns its
first value, with nil error when the second is nil and with the second
wrapped as `cannotInject` (its cause still reachable) when non-nil. -/
theorem inject_return_normalization (n : needle) (f : GoFunc)
    (args : List GoValue) (hwf : NeedleWF n)
    (hres : resolveArgs n f.inTypes = .ok args) :
    (f.outTypes.length = 1 →
        needle.Inject n (.fn f) =
          .ok (⟨(f.call args).get? 0, none, [args]⟩, n))
    ∧ (f.outTypes.length = 2 → Out1 f = errorType →
        ∀ r, (f.call args).get? 1 = some r →
          (r.isNilInterface = true →
              needle.Inject n (.fn f) =
                .ok (⟨(f.call args).get? 0, none, [args]⟩, n))
          ∧ (r.isNilInterface = false →
              needle.Inject n (.fn f) =
                .ok (⟨(f.call args).get? 0,
                  some (.cannotInject r), [args]⟩, n)
              ∧ (InjectError.cannotInject r).cause = some r)) := by
  constructor
  · intro h1
    have hs := inject_success n f args hwf (Or.inl h1) hres
    have hg : (f.call args).get? 1 = none :=
      List.get?_eq_none.mpr (by rw [call_length, h1])
    rw [hs, hg, Option.none_bind]
  · intro h2 hOut r hr
    have hs := inject_success n f args hwf (Or.inr ⟨h2, hOut⟩) hres
    constructor
    · intro hnil
      rw [hs, hr, Option.some_bind, if_pos hnil]
    · intro hnil
      refine ⟨?_, rfl⟩
      rw [hs, hr, Option.some_bind, if_neg (by simp [hnil])]

/-- Witness for `inject_return_normalization`: `fValErr` returns a
non-nil error, which comes back wrapped with its cause reachable. -/
theorem inject_return_normalization_witness :
    (needle.Inject (toNeedle [vStr]) (.fn fValErr) =
        .ok (⟨(fValErr.call [vStr]).get? 0,
          some (.cannotInject ⟨errorType, 8, false⟩), [[vStr]]⟩,
          toNeedle [vStr]))
    ∧ (InjectError.cannotInject ⟨errorType, 8, false⟩).cause =
        some ⟨errorType, 8, false⟩ :=
  ((inject_return_normalization (toNeedle [vStr]) fValErr [vStr]
      (toNeedle_wf [vStr]) rfl).2 rfl rfl ⟨errorType, 8, false⟩ rfl).2 rfl

/-- C5: `Inject` validation — a non-function argument yields
`notCallable` with its kind; zero returns yields `noReturnValue`; more
than two returns yields `tooManyReturnValues`; two returns whose second
is not the `error` type yields `invalidSecondReturn` naming it.  In all
cases the result is nil, no call is performed (`calls = []`), and the
outcome does not consult the registry (`n` is arbitrary). -/
theorem inject_validation (n : needle) (f : GoFunc) (kind : String) :
    (needle.Inject n (.nonFunc kind) =
        .ok (⟨none, some (.notCallable kind), []⟩, n))
    ∧ (f.outTypes.length = 0 →
        needle.Inject n (.fn f) =
          .ok (⟨none, some .noReturnValue, []⟩, n))
    ∧ (2 < f.outTypes.length →
        needle.Inject n (.fn f) =
          .ok (⟨none, some .tooManyReturnValues, []⟩, n))
    ∧ (f.outTypes.length = 2 → Out1 f ≠ errorType →
        needle.Inject n (.fn f) =
          .ok (⟨none, some (.invalidSecondReturn (Out1 f)), []⟩, n)) :=
  ⟨inject_nonFunc n kind, inject_noReturn n f, inject_tooMany n f,
    inject_invalidSecond n f⟩

/-- Witness for `inject_validation`: the zero-return function `fZero`
fails with `noReturnValue`. -/
theorem inject_validation_witness :
    needle.Inject [] (.fn fZero) =
      .ok (⟨none, some .noReturnValue, []⟩, []) :=
  (inject_validation [] fZero kindInt).2.1 rfl

/-- C6: each argument is bound by its parameter's type identity only —
positionally, `args[i]` is exactly the registry entry for the declared
type at position `i`; registries built from permuted value sequences
give identical `Inject` outcomes; and permuted parameter lists receive
correspondingly permuted arguments from the same resolution set. -/
theorem inject_order_invariance :
    (∀ (n : needle) (ts : List GoType) (args : List GoValue) (i : Nat)
        (t : GoType), resolveArgs n ts = .ok args → ts.get? i = some t →
        args.get? i = nLookup n t)
    ∧ (∀ (vs vsP : List GoValue) (n nP : needle), vs.Perm vsP →
        vs.Pairwise (fun a b => a.ty ≠ b.ty) →
        New vs = .ok n → New vsP = .ok nP →
        ∀ a : InjectArg,
          (needle.Inject n a).map Prod.fst =
            (needle.Inject nP a).map Prod.fst)
    ∧ (∀ (n : needle) (f g : GoFunc) (argsF argsG : List GoValue)
        (i j : Nat) (t : GoType),
        resolveArgs n f.inTypes = .ok argsF →
        resolveArgs n g.inTypes = .ok argsG →
        f.inTypes.get? i = some t → g.inTypes.get? j = some t →
        argsF.get? i = argsG.get? j) := by
  refine ⟨?_, ?_, ?_⟩
  · intro n ts args i t hres hi
    rw [resolveArgs_get? n ts args hres i, hi]
    rfl
  · intro vs vsP n nP hperm hd hN hNP a
    have hn := New_ok_eq_toNeedle vs n hN
    have hnP := New_ok_eq_toNeedle vsP nP hNP
    subst hn
    subst hnP
    exact inject_ext_wf _ _ (toNeedle_wf vs) (toNeedle_wf vsP)
      (nLookup_toNeedle_perm vs vsP hperm hd) a
  · intro n f g argsF argsG i j t hF hG hi hj
    rw [resolveArgs_get? n f.inTypes argsF hF i, hi,
      resolveArgs_get? n g.inTypes argsG hG j, hj]

/-- Witness for `inject_order_invariance`: registries built from
`[vA, vB]` and `[vB, vA]` drive `fAB` to the same outcome. -/
theorem inject_order_invariance_witness :
    (needle.Inject (toNeedle [vA, vB]) (.fn fAB)).map Prod.fst =
      (needle.Inject (toNeedle [vB, vA]) (.fn fAB)).map Prod.fst :=
  inject_order_invariance.2.1 [vA, vB] [vB, vA] (toNeedle [vA, vB])
    (toNeedle [vB, vA]) (List.Perm.swap vB vA []) (by decide) rfl rfl
    (.fn fAB)

/-- On typed (non-nil) arguments, the full `New` loop agrees with the
nil-free `newLoop` above: `New` is the typed restriction of `NewFull`. -/
theorem newLoopFull_val (vs : List GoValue) : ∀ (acc : needle) (b : Bool),
    newLoopFull acc b (vs.map NewArg.val) = .ok (newLoop acc vs) := by
  induction vs with
  | nil => intro acc b; rfl
  | cons v rest ih =>
    intro acc b
    simp only [List.map_cons, newLoopFull, newLoop]
    cases hl : nLookup acc v.ty with
    | some old => rfl
    | none => exact ih _ b

theorem NewFull_on_typed (vs : List GoValue) :
    NewFull (vs.map NewArg.val) = .ok (New vs) := by
  have hloop := newLoopFull_val vs [] false
  simpa [NewFull, New] using hloop

/-- C7 counterexample: the claim "for every input, `New` and `Inject`
never escape via a panic from inside the core" fails on the code at two
concrete inputs.  (1) With the slice type `[]int` registered, `Inject`
of the variadic `func(xs ...int) int` passes validation and resolution,
and then `val.Call` panics re-packing the trailing argument (`[]int` is
not assignable to the element type `int`).  (2) `New(nil, nil)` stores
the zero `Value` under the nil type key and then panics in
`old.Interface()` instead of returning the duplicate error. -/
theorem inject_never_panics_counterexample :
    (New [vIntSlice] = .ok (toNeedle [vIntSlice])
      ∧ needle.Inject (toNeedle [vIntSlice]) (.variadicFn fVariadic) =
          .error .callArgumentMismatch)
    ∧ NewFull [.nilArg, .nilArg] = .error .zeroValueInterface :=
  ⟨⟨rfl, rfl⟩, rfl⟩

/-- C7 (amended): restricted to typed (non-nil) registered values — the
domain of `New` — and to non-variadic callables, every failure of `New`
and `Inject` is reported as a returned value-level error: on a registry
built by `New`, `Inject` always returns (the modelled panic sources —
reflect `Call` argument mismatch and the `i.(error)` assertion — never
fire), while `Must` alone turns a non-nil error into a panic, and only
then.  The exclusions are exactly the two concrete panic inputs
exhibited above. -/
theorem inject_never_panics_amended (vs : List GoValue) (n : needle)
    (h : New vs = .ok n) :
    (∀ a : InjectArg, (∀ g : VariadicGoFunc, a ≠ .variadicFn g) →
        ∃ res, needle.Inject n a = .ok res)
    ∧ (∀ i, Must i none = .ok i)
    ∧ (∀ i e, Must i (some e) = .error (.panicked e)) :=
  ⟨inject_no_panic n (New_ok_wf vs n h), fun _ => rfl, fun _ _ => rfl⟩

/-- Witness for `inject_never_panics_amended`: the registry from `[vA]`
and the callable `fAB` (whose dependency `B` is missing) still return
normally. -/
theorem inject_never_panics_amended_witness :
    ∃ res, needle.Inject (toNeedle [vA]) (.fn fAB) = .ok res :=
  (inject_never_panics_amended [vA] (toNeedle [vA]) rfl).1 (.fn fAB)
    (fun g hg => InjectArg.noConfusion hg)

/-- C8: `Inject` never modifies the registry: whatever the argument and
outcome, the registry handed back is the input registry, so an
identical repeated call (on the registry a call hands back) is the very
same call and a failed invocation cannot affect later ones. -/
theorem inject_registry_immutable (n : needle) (a : InjectArg) :
    (∀ out n2, needle.Inject n a = .ok (out, n2) → n2 = n)
    ∧ (∀ out n2, needle.Inject n a = .ok (out, n2) →
        needle.Inject n2 a = needle.Inject n a) := by
  refine ⟨fun out n2 h => inject_frame n a out n2 h, ?_⟩
  intro out n2 h
  rw [inject_frame n a out n2 h]

/-- Witness for `inject_registry_immutable`: a failed call on the
registry from `[vA]` hands back the same registry, so repeating it is
identical. -/
theorem inject_registry_immutable_witness :
    needle.Inject (toNeedle [vA]) (.fn fAB) =
      needle.Inject (toNeedle [vA]) (.fn fAB) :=
  (inject_registry_immutable (toNeedle [vA]) (.fn fAB)).2
    ⟨none, some (.missingDependency tB), []⟩ (toNeedle [vA]) rfl

/-- C9: the second-return check is exact type identity with the `error`
interface type: a second return type that implements `error` but is not
`errorType` itself is rejected with `invalidSecondReturn` naming it,
and the callable is not invoked. -/
theorem inject_second_return_exact_identity (n : needle) (f : GoFunc)
    (t u : GoType) (hout : f.outTypes = [t, u])
    (himpl : u.implementsError = true) (hne : u ≠ errorType) :
    needle.Inject n (.fn f) =
      .ok (⟨none, some (.invalidSecondReturn u), []⟩, n) := by
  have h2 : f.outTypes.length = 2 := by rw [hout]; rfl
  have hOut : Out1 f = u := by simp [Out1, hout]
  have hinv := inject_invalidSecond n f h2 (by rw [hOut]; exact hne)
  rw [hOut] at hinv
  exact hinv

/-- Witness for `inject_second_return_exact_identity`: `fBadSecond`
returns `(string, MyErr)` where `MyErr` implements `error`, and is
rejected. -/
theorem inject_second_return_exact_identity_witness :
    needle.Inject [] (.fn fBadSecond) =
      .ok (⟨none, some (.invalidSecondReturn tMyErr), []⟩, []) :=
  inject_second_return_exact_identity [] fBadSecond tStr tMyErr rfl rfl
    (by decide)

/-- C10: `New` with no values succeeds with an empty, usable registry;
on any well-formed registry (the empty one included), a zero-parameter
callable with a valid return shape is invoked with the empty argument
list and its result normalized as usual. -/
theorem inject_empty_and_zero_param :
    New [] = .ok ([] : needle)
    ∧ ∀ (n : needle) (f : GoFunc), NeedleWF n → f.inTypes = [] →
        ValidReturnShape f →
        needle.Inject n (.fn f) =
          .ok (⟨(f.call []).get? 0,
            ((f.call []).get? 1).bind
              (fun r => if r.isNilInterface then none
                else some (.cannotInject r)), [[]]⟩, n) := by
  refine ⟨rfl, ?_⟩
  intro n f hwf hin hshape
  have hres : resolveArgs n f.inTypes = .ok [] := by rw [hin]; rfl
  exact inject_success n f [] hwf hshape hres

/-- Witness for `inject_empty_and_zero_param`: the empty registry calls
the zero-parameter `fNoArgs` with no arguments. -/
theorem inject_empty_and_zero_param_witness :
    needle.Inject [] (.fn fNoArgs) =
      .ok (⟨(fNoArgs.call []).get? 0,
        ((fNoArgs.call []).get? 1).bind
          (fun r => if r.isNilInterface then none
            else some (.cannotInject r)), [[]]⟩, ([] : needle)) :=
  inject_empty_and_zero_param.2 [] fNoArgs
    (fun p hp => absurd hp (List.not_mem_nil p)) rfl (Or.inl rfl)
